import Mathlib

/-!
# Verification of the circle-data processor against its specification

Shallow embedding of the relevant functions of `src/app.py` of the
mmfr-circle-data-processor repository.  Tabular data (pandas DataFrames) is
modelled row-wise: a row is an association list from column name to the cell's
string content; a missing key plays the role of a missing / NA cell, whose
string rendering after the program's `normalize_value` helper is the empty
string.  Each Lean definition carries a reference to the Python function it
embeds.
-/

namespace CircleData

/-- Whitespace set of Python's `str.strip()` with no argument (space, tab,
newline, carriage return, vertical tab, form feed). -/
def isStripSpace (c : Char) : Bool :=
  c == ' ' || c == '\t' || c == '\n' || c == '\r' ||
  c == Char.ofNat 11 || c == Char.ofNat 12

/-- Drops leading characters satisfying `isStripSpace`. -/
def dropLeadingSpaces : List Char → List Char
  | [] => []
  | c :: cs => if isStripSpace c then dropLeadingSpaces cs else c :: cs

/-- Embeds Python's `str.strip()`: removes whitespace from both ends. -/
def pyStrip (s : String) : String :=
  String.mk ((dropLeadingSpaces ((dropLeadingSpaces s.data).reverse)).reverse)

/-- Embeds `normalize_value` (app.py lines 20-34): NA-like values become the
empty string, everything else is stringified and stripped; the stringified NA
sentinels `"nan"`, `"None"`, `"<NA>"` also become the empty string.  In this
embedding cell values are already strings and an absent cell is read as `""`
by `rowGet`, which covers the `pd.isna` branch. -/
def normalizeValue (raw : String) : String :=
  let value := pyStrip raw
  if value = "nan" ∨ value = "None" ∨ value = "<NA>" then "" else value

/-- A pandas row: association list from column name to cell string. -/
abbrev Row := List (String × String)

/-- Embeds `row.get(col, '')`: the first binding of the column, default `""`. -/
def rowGet : Row → String → String
  | [], _ => ""
  | p :: r, c => if p.1 == c then p.2 else rowGet r c

/-- Embeds `col in row.index` / `col in df.columns` membership tests. -/
def rowHas : Row → String → Bool
  | [], _ => false
  | p :: r, c => p.1 == c || rowHas r c

/-- The labels of a row, in order (pandas `row.index`). -/
def rowKeys (r : Row) : List String :=
  r.map Prod.fst

/-- Embeds `df.at[idx, col] = v` for one row: overwrite the binding if the
column exists, append it otherwise. -/
def setCol (r : Row) (c v : String) : Row :=
  if rowHas r c then r.map (fun p => if p.1 == c then (p.1, v) else p)
  else r ++ [(c, v)]

/-- Recursion core of `get_excel_column_name` (app.py lines 36-49).  The
Python loop prepends `chr(column_index % 26 + ord('A'))` and continues with
`column_index // 26 - 1` while the index is non-negative; the recursion below
produces the same characters (the first character the loop generates is the
last of the list).  `fuel` is a structural upper bound on the recursion depth
(the index strictly decreases, so any `fuel ≥ n` is enough and the `0` branch
is unreachable); it exists only to make the definition kernel-reducible. -/
def excelColCharsGo : Nat → Nat → List Char
  | 0, n => if n < 26 then [Char.ofNat (n % 26 + 65)] else []
  | fuel + 1, n =>
    if n < 26 then [Char.ofNat (n % 26 + 65)]
    else excelColCharsGo fuel (n / 26 - 1) ++ [Char.ofNat (n % 26 + 65)]

/-- The character list accumulated by `get_excel_column_name` (app.py
lines 36-49). -/
def excelColChars (n : Nat) : List Char :=
  excelColCharsGo n n

/-- Embeds `get_excel_column_name` (app.py lines 36-49). -/
def get_excel_column_name (n : Nat) : String :=
  String.mk (excelColChars n)

/-- Value of a letter string in the bijective base-26 numeral system with
digits A=1 … Z=26 and no zero digit: the position (1-based) of the string in
the enumeration A, B, …, Z, AA, AB, … .  Written from the spec's wording of the
column-letter utility, used as the reference for the claim about
`get_excel_column_name`. -/
def bijBase26Val (cs : List Char) : Nat :=
  cs.foldl (fun a c => a * 26 + (c.toNat - 64)) 0

theorem charOfNat_letter_toNat (m : Nat) (h : m < 26) :
    (Char.ofNat (m + 65)).toNat = m + 65 := by
  interval_cases m <;> decide

theorem charOfNat_letter_range (m : Nat) (h : m < 26) :
    'A' ≤ Char.ofNat (m + 65) ∧ Char.ofNat (m + 65) ≤ 'Z' := by
  interval_cases m <;> exact ⟨by decide, by decide⟩

theorem bijBase26Val_append (l : List Char) (c : Char) :
    bijBase26Val (l ++ [c]) = bijBase26Val l * 26 + (c.toNat - 64) := by
  simp [bijBase26Val]

theorem excelColCharsGo_fuel (fuel n : Nat) (h : n ≤ fuel) :
    excelColCharsGo fuel n = excelColChars n := by
  rw [excelColChars]
  induction fuel using Nat.strong_induction_on generalizing n with
  | _ fuel ih =>
    by_cases h26 : n < 26
    · cases fuel with
      | zero =>
        have hn0 : n = 0 := by omega
        subst hn0
        rfl
      | succ fuel' =>
        cases n with
        | zero => rw [excelColCharsGo, excelColCharsGo, if_pos h26, if_pos h26]
        | succ m => rw [excelColCharsGo, excelColCharsGo, if_pos h26, if_pos h26]
    · have hn1 : 1 ≤ n := by omega
      have hfuel : 1 ≤ fuel := by omega
      obtain ⟨fuel', rfl⟩ : ∃ k, fuel = k + 1 := ⟨fuel - 1, by omega⟩
      obtain ⟨m, rfl⟩ : ∃ k, n = k + 1 := ⟨n - 1, by omega⟩
      rw [excelColCharsGo, if_neg h26]
      conv_rhs => rw [excelColCharsGo, if_neg h26]
      have hdiv : (m + 1) / 26 - 1 ≤ fuel' := by
        have : (m + 1) / 26 ≤ m + 1 := Nat.div_le_self _ _
        omega
      have hdiv2 : (m + 1) / 26 - 1 ≤ m := by
        have : (m + 1) / 26 ≤ m + 1 := Nat.div_le_self _ _
        omega
      rw [ih fuel' (by omega) _ hdiv, ← ih m (by omega) _ hdiv2]

theorem excelColChars_eq (n : Nat) :
    excelColChars n =
      if n < 26 then [Char.ofNat (n % 26 + 65)]
      else excelColChars (n / 26 - 1) ++ [Char.ofNat (n % 26 + 65)] := by
  by_cases h26 : n < 26
  · cases n with
    | zero => rw [if_pos h26, excelColChars, excelColCharsGo, if_pos h26]
    | succ m => rw [if_pos h26, excelColChars, excelColCharsGo, if_pos h26]
  · have hn1 : 1 ≤ n := by omega
    obtain ⟨m, rfl⟩ : ∃ k, n = k + 1 := ⟨n - 1, by omega⟩
    rw [if_neg h26, excelColChars, excelColCharsGo, if_neg h26]
    have hdiv : (m + 1) / 26 - 1 ≤ m := by
      have : (m + 1) / 26 ≤ m + 1 := Nat.div_le_self _ _
      omega
    rw [excelColCharsGo_fuel m _ hdiv]

theorem excelColChars_val (n : Nat) :
    bijBase26Val (excelColChars n) = n + 1 := by
  induction n using Nat.strong_induction_on with
  | _ n ih =>
    rw [excelColChars_eq]
    have hm : n % 26 < 26 := Nat.mod_lt _ (by omega)
    by_cases h : n < 26
    · simp only [if_pos h, bijBase26Val, List.foldl]
      have := charOfNat_letter_toNat (n % 26) hm
      have hn : n % 26 = n := Nat.mod_eq_of_lt h
      omega
    · simp only [if_neg h]
      rw [bijBase26Val_append]
      have hlt : n / 26 - 1 < n := by
        have : n / 26 < n := Nat.div_lt_self (by omega) (by omega)
        omega
      rw [ih _ hlt]
      have := charOfNat_letter_toNat (n % 26) hm
      omega

theorem excelColChars_range (n : Nat) :
    ∀ c ∈ excelColChars n, 'A' ≤ c ∧ c ≤ 'Z' := by
  induction n using Nat.strong_induction_on with
  | _ n ih =>
    rw [excelColChars_eq]
    have hm : n % 26 < 26 := Nat.mod_lt _ (by omega)
    by_cases h : n < 26
    · simp only [if_pos h, List.mem_singleton]
      intro c hc
      subst hc
      exact charOfNat_letter_range (n % 26) hm
    · simp only [if_neg h, List.mem_append, List.mem_singleton]
      intro c hc
      rcases hc with hc | hc
      · have hlt : n / 26 - 1 < n := by
          have : n / 26 < n := Nat.div_lt_self (by omega) (by omega)
          omega
        exact ih _ hlt c hc
      · subst hc
        exact charOfNat_letter_range (n % 26) hm

theorem excelColChars_ne_nil (n : Nat) : excelColChars n ≠ [] := by
  rw [excelColChars_eq]
  by_cases h : n < 26 <;> simp [h]

theorem bijBase26Val_pos (u : List Char) (hu : u ≠ [])
    (hru : ∀ d ∈ u, 'A' ≤ d ∧ d ≤ 'Z') : 1 ≤ bijBase26Val u := by
  induction u using List.reverseRecOn with
  | nil => exact absurd rfl hu
  | append_singleton t c _ =>
    rw [bijBase26Val_append]
    have h65 : 65 ≤ c.toNat := (hru c (by simp)).1
    omega

theorem excelColChars_leftInverse (cs : List Char) (hne : cs ≠ [])
    (hr : ∀ c ∈ cs, 'A' ≤ c ∧ c ≤ 'Z') :
    excelColChars (bijBase26Val cs - 1) = cs := by
  induction cs using List.reverseRecOn with
  | nil => exact absurd rfl hne
  | append_singleton t c iht =>
    have hc : 'A' ≤ c ∧ c ≤ 'Z' := hr c (by simp)
    have hcval : 65 ≤ c.toNat ∧ c.toNat ≤ 90 := ⟨hc.1, hc.2⟩
    rw [bijBase26Val_append]
    set d := c.toNat - 64 with hd
    have hd1 : 1 ≤ d := by omega
    have hd26 : d ≤ 26 := by omega
    by_cases ht : t = []
    · subst ht
      simp only [bijBase26Val, List.foldl_nil, Nat.zero_mul, Nat.zero_add,
        List.nil_append]
      rw [excelColChars_eq]
      have hlt : d - 1 < 26 := by omega
      rw [if_pos hlt]
      have hmod : (d - 1) % 26 = d - 1 := Nat.mod_eq_of_lt hlt
      have hch : Char.ofNat ((d - 1) % 26 + 65) = c := by
        rw [hmod]
        have hv : d - 1 + 65 = c.toNat := by omega
        rw [hv]
        exact Char.ofNat_toNat c
      rw [hch]
    · have htv : 1 ≤ bijBase26Val t :=
        bijBase26Val_pos t ht (fun e he => hr e (by simp [he]))
      rw [excelColChars_eq]
      have hge : ¬ (bijBase26Val t * 26 + d - 1 < 26) := by
        have : 26 ≤ bijBase26Val t * 26 := by omega
        omega
      rw [if_neg hge]
      have hdiv : (bijBase26Val t * 26 + d - 1) / 26 - 1 = bijBase26Val t - 1 := by
        omega
      have hmod : (bijBase26Val t * 26 + d - 1) % 26 = d - 1 := by
        omega
      rw [hdiv, hmod, iht ht (fun e he => hr e (by simp [he]))]
      have hch : Char.ofNat (d - 1 + 65) = c := by
        have hv : d - 1 + 65 = c.toNat := by omega
        rw [hv]
        exact Char.ofNat_toNat c
      rw [hch]

/-- Claim C10: `get_excel_column_name` maps the zero-based index `n` to the
`(n+1)`-th string of the A, B, …, Z, AA, AB, … enumeration: the produced string
is a non-empty string of letters A–Z whose bijective base-26 value is `n + 1`,
the map is inverse to the bijective base-26 reading on all such strings, and
the anchors 0→A, 25→Z, 26→AA hold. -/
theorem get_excel_column_name_bijective_base26 :
    (∀ n : Nat, bijBase26Val (get_excel_column_name n).data = n + 1
      ∧ (∀ c ∈ (get_excel_column_name n).data, 'A' ≤ c ∧ c ≤ 'Z')
      ∧ (get_excel_column_name n).data ≠ [])
    ∧ (∀ cs : List Char, cs ≠ [] → (∀ c ∈ cs, 'A' ≤ c ∧ c ≤ 'Z') →
        get_excel_column_name (bijBase26Val cs - 1) = String.mk cs)
    ∧ get_excel_column_name 0 = "A"
    ∧ get_excel_column_name 25 = "Z"
    ∧ get_excel_column_name 26 = "AA" := by
  refine ⟨fun n => ⟨?_, ?_, ?_⟩, fun cs hne hr => ?_, ?_, ?_, ?_⟩
  · exact excelColChars_val n
  · exact excelColChars_range n
  · exact excelColChars_ne_nil n
  · unfold get_excel_column_name
    rw [excelColChars_leftInverse cs hne hr]
  · decide
  · decide
  · decide

/-- Claim C10 witness: the inverse direction evaluated at the concrete
two-letter string AB (bijective value 28, index 27). -/
theorem get_excel_column_name_bijective_base26_witness :
    get_excel_column_name (bijBase26Val ['A', 'B'] - 1) = String.mk ['A', 'B'] :=
  get_excel_column_name_bijective_base26.2.1 ['A', 'B'] (by decide) (by decide)

/-- Embeds `get_column_position_text` (app.py lines 51-66): bracketed column
letters of the column's position, or the placeholder when the column is not
found. -/
def get_column_position_text (cols : List String) (columnName : String) : String :=
  match cols.findIdx? (· == columnName) with
  | some i => "（" ++ get_excel_column_name i ++ "列）"
  | none => "（不明列）"

/-- The 10 MiB CSV upload cap `MAX_FILE_SIZE` (app.py line 307). -/
def MAX_FILE_SIZE : Nat := 10 * 1024 * 1024

/-- Embeds `csv_file.read(MAX_FILE_SIZE)` (app.py line 308): a capped read of
a stream of `totalLen` bytes returns `min totalLen MAX_FILE_SIZE` bytes. -/
def bytesRead (totalLen : Nat) : Nat :=
  min totalLen MAX_FILE_SIZE

/-- Embeds the size gate of `validate_csv_file` (app.py lines 309-310): raise
the file-too-large `ValueError` iff `len(file_content) == MAX_FILE_SIZE`. -/
def sizeGateRaises (totalLen : Nat) : Bool :=
  bytesRead totalLen == MAX_FILE_SIZE

/-- Claim C8 counterexample: the claim states the gate fails exactly when the
stream still has bytes beyond the first 10 MiB, so an upload of exactly
10 MiB (10485760 bytes, which does not exceed 10 MiB) should pass — but the
code rejects it, because a capped read of exactly `MAX_FILE_SIZE` bytes is
indistinguishable from a truncated longer stream. -/
theorem sizeGate_rejects_exact_10MiB :
    ¬ ((sizeGateRaises 10485760 = true) ↔ 10485760 > MAX_FILE_SIZE) := by
  decide

/-- Claim C8 (amended): `validate_csv_file` reads at most 10 MiB of the
uploaded stream, and the file-too-large error is raised exactly when the
total upload size is at least 10 MiB; uploads strictly smaller than 10 MiB
pass the size gate. -/
theorem sizeGate_reads_capped_and_rejects_ge_10MiB (n : Nat) :
    bytesRead n ≤ MAX_FILE_SIZE ∧ (sizeGateRaises n = true ↔ MAX_FILE_SIZE ≤ n) := by
  refine ⟨Nat.min_le_right _ _, ?_⟩
  simp only [sizeGateRaises, bytesRead, beq_iff_eq, Nat.min_def, MAX_FILE_SIZE]
  split_ifs <;> omega

/-- The marker substrings of `process_binary_columns` (app.py lines 83-89). -/
def binaryMarkerPatterns : List String :=
  ["対象年齢", "要会費", "冊子掲載可", "HP掲載可", "オープンデータ掲載可"]

/-- Tests whether the first character list starts the second. -/
def leadsWith : List Char → List Char → Bool
  | [], _ => true
  | _ :: _, [] => false
  | p :: ps, c :: cs => p == c && leadsWith ps cs

/-- Tests whether the pattern occurs contiguously inside the character
list. -/
def containsChars (pat : List Char) : List Char → Bool
  | [] => pat.isEmpty
  | c :: cs => leadsWith pat (c :: cs) || containsChars pat cs

/-- Substring membership, embedding Python's `pattern in str(col)`. -/
def containsPattern (col pat : String) : Bool :=
  containsChars pat.data col.data

/-- Embeds the per-cell effect of `process_binary_columns` (app.py
lines 103-109) on a stringified cell: `replace('0', '')` followed by
`replace('1', '○')`, both exact whole-value replacements on a pandas
series. -/
def process_binary_value (v : String) : String :=
  let v1 := if v = "0" then "" else v
  if v1 = "1" then "○" else v1

/-- The `binary_columns` list of `format_for_import` (app.py lines 3029-3033). -/
def importBinaryColumns : List String :=
  ["参加者の条件(妊娠)", "参加者の条件(0歳)", "参加者の条件(1歳)",
   "参加者の条件(1歳後半)", "参加者の条件(2歳)", "参加者の条件(2歳後半)",
   "参加者の条件(3歳)", "参加者の条件(4歳)", "参加者の条件(5歳)",
   "参加者の条件(6歳)", "参加者の条件(どなたでも)", "要会費",
   "冊子掲載可", "HP掲載可", "オープンデータ掲載可"]

/-- Embeds the per-cell boolean conversion of `format_for_import` (app.py
lines 3040-3052): normalized blank or `"0"` becomes `"0"`; `"○"` or `"1"`
becomes `"1"`; anything else is an inline error and is forced to `"0"`.  The
second component records whether the error branch fired. -/
def format_binary_value (v : String) : String × Bool :=
  let value := normalizeValue v
  if value = "" ∨ value = "0" then ("0", false)
  else if value = "○" ∨ value = "1" then ("1", false)
  else ("0", true)

/-- Claim C9: on a cell holding `"0"` or `"1"`, the workbook-generation
normalization (`process_binary_columns`) followed by the import formatting
conversion is the identity and raises no inline error; and each of the named
marker columns is both matched by a marker substring and a member of the
boolean column list of the import formatter, so such columns undergo both
transformations. -/
theorem binary_flag_roundtrip :
    (∀ v : String, v = "0" ∨ v = "1" →
      format_binary_value (process_binary_value v) = (v, false))
    ∧ (∀ c ∈ ["要会費", "冊子掲載可", "HP掲載可", "オープンデータ掲載可"],
        (binaryMarkerPatterns.any fun pat => containsPattern c pat) = true
        ∧ c ∈ importBinaryColumns) := by
  constructor
  · rintro v (rfl | rfl) <;> decide
  · decide

/-- Claim C9 witness: the round trip evaluated at the concrete stored value
`"1"`. -/
theorem binary_flag_roundtrip_witness :
    format_binary_value (process_binary_value "1") = ("1", false) :=
  binary_flag_roundtrip.1 "1" (Or.inr rfl)

/-- Embeds the status-derivation step of `format_for_import` (app.py
lines 3070-3093): the per-row cascade over the normalized
`修正・削除新規` and `HP掲載可` values, including the code's redundant
`status_value != '削除'` conjunct in the second branch. -/
def deriveImportStatus (statusRaw hpRaw : String) : String :=
  let status_value := normalizeValue statusRaw
  let hp_publish := normalizeValue hpRaw
  if status_value = "削除" then "private"
  else if status_value ≠ "削除" ∧ status_value = "" then "publish"
  else if hp_publish = "1" then "publish"
  else if hp_publish = "0" then "private"
  else "publish"

/-- The five status-priority rules exactly as the claim states them
(first matching rule wins): 削除 → private; blank → publish;
HP掲載可 "1" → publish; HP掲載可 "0" → private; default publish.  Reference
definition for claim C2, written from the spec's wording. -/
def statusPrioritySpec (statusRaw hpRaw : String) : String :=
  let status_value := normalizeValue statusRaw
  let hp_publish := normalizeValue hpRaw
  if status_value = "削除" then "private"
  else if status_value = "" then "publish"
  else if hp_publish = "1" then "publish"
  else if hp_publish = "0" then "private"
  else "publish"

/-- Claim C2: the import formatter derives ステータス by the claimed priority
cascade, and in particular a 削除 row with HP掲載可 "1" gets `private` while a
blank-status row with HP掲載可 "0" gets `publish`. -/
theorem import_status_priority :
    (∀ statusRaw hpRaw : String,
      deriveImportStatus statusRaw hpRaw = statusPrioritySpec statusRaw hpRaw)
    ∧ deriveImportStatus "削除" "1" = "private"
    ∧ deriveImportStatus "" "0" = "publish" := by
  refine ⟨fun s hp => ?_, by decide, by decide⟩
  unfold deriveImportStatus statusPrioritySpec
  dsimp only
  split_ifs <;> first | rfl | tauto

/-- Decimal value of a digit string, embedding Python's `int(slug[2:])` under
the all-digits guard. -/
def decDigitsVal (s : String) : Nat :=
  s.data.foldl (fun a c => a * 10 + (c.toNat - 48)) 0

/-- Recursion core of the decimal rendering of a natural number; `fuel` is a
structural bound on the digit count (any `fuel > n` suffices), present only
to make the definition kernel-reducible. -/
def natDigitsGo : Nat → Nat → List Char
  | 0, _ => []
  | fuel + 1, n =>
    if n < 10 then [Char.ofNat (n % 10 + 48)]
    else natDigitsGo fuel (n / 10) ++ [Char.ofNat (n % 10 + 48)]

/-- Decimal rendering of a natural number, embedding Python's `str(n)` /
`%d`. -/
def natToString (n : Nat) : String :=
  String.mk (natDigitsGo (n + 1) n)

/-- Embeds the slug-number collection of `create_user_import_data` (app.py
lines 3542-3548): every existing user slug of the shape `cs` + digits whose
numeric suffix lies in 1–9998 contributes its suffix; `cs9999` and malformed
slugs are skipped. -/
def csNumbers (slugs : List String) : List Nat :=
  slugs.filterMap fun slug =>
    let suffix := String.mk (slug.data.drop 2)
    if leadsWith "cs".data slug.data ∧ suffix ≠ "" ∧ suffix.data.all Char.isDigit then
      let num := decDigitsVal suffix
      if 1 ≤ num ∧ num ≤ 9998 then some num else none
    else none

/-- Embeds `next_number = max(cs_numbers) + 1 if cs_numbers else 1` (app.py
line 3550). -/
def nextUserNumber (existing : List String) : Nat :=
  match csNumbers existing with
  | [] => 1
  | ns => ns.foldl max 0 + 1

/-- Embeds the Python format `cs` + `%04d` zero padding of the slug number
(app.py line 3651): at least 4 digits, wider numbers rendered unpadded. -/
def formatCsSlug (n : Nat) : String :=
  let s := natToString n
  "cs" ++ String.mk (List.replicate (4 - s.length) '0') ++ s

/-- The slugs allocated by the new-account loop of `create_user_import_data`
for `accepted` accepted candidates in row order (app.py lines 3552-3673):
each accepted candidate receives `formatCsSlug next_number` and increments
`next_number` by one; the per-candidate accept/skip tests (missing fields,
duplicate e-mails, already-issued users) are abstracted by the number of
accepted candidates, which is all the slug computation depends on. -/
def allocatedSlugs (existing : List String) (accepted : Nat) : List String :=
  (List.range accepted).map fun i => formatCsSlug (nextUserNumber existing + i)

/-- Claim C4 counterexample: the claim states `cs9999` is never allocated,
but when the largest existing suffix is 9998 the next accepted candidate is
allocated `cs9999` — the reservation exists only in the counting step, not at
allocation. -/
theorem cs9999_allocated_after_cs9998 :
    allocatedSlugs ["cs9998"] 1 = ["cs9999"]
    ∧ "cs9999" ∈ allocatedSlugs ["cs9998"] 1 := by
  decide

/-- Claim C4 (amended): the next slug number is 1 + the maximum of the
existing `cs####` suffixes restricted to 1–9998 (1 when none exists, the
maximum being taken with default 0), each accepted candidate increments the
number by one in row order, and `cs9999` is never counted when computing the
next available number — but it is not reserved at allocation, so existing
`{cs0001, cs0003, cs9999}` yield `cs0004` while an empty user table yields
`cs0001`. -/
theorem user_slug_allocation (existing : List String) (k : Nat) :
    csNumbers (existing ++ ["cs9999"]) = csNumbers existing
    ∧ allocatedSlugs existing (k + 1)
        = allocatedSlugs existing k ++ [formatCsSlug (nextUserNumber existing + k)]
    ∧ nextUserNumber existing = (csNumbers existing).foldl max 0 + 1
    ∧ allocatedSlugs ["cs0001", "cs0003", "cs9999"] 1 = ["cs0004"]
    ∧ allocatedSlugs [] 1 = ["cs0001"] := by
  refine ⟨?_, ?_, ?_, by decide, by decide⟩
  · rw [csNumbers, List.filterMap_append]
    have h9999 : csNumbers ["cs9999"] = [] := by decide
    rw [csNumbers] at h9999
    rw [h9999, List.append_nil, csNumbers]
  · rw [allocatedSlugs, allocatedSlugs, List.range_succ, List.map_append,
      List.map_singleton]
  · rw [nextUserNumber]
    match csNumbers existing with
    | [] => rfl
    | n :: ns => rfl

/-- Embeds `validate_facility_data`'s display of a `場所` value (app.py
lines 4072-4074, 4090-4092): `row.get('場所', '不明')`, with an NA value
shown as `（空欄）`.  In this embedding an absent binding plays the missing
column and an empty string plays NA. -/
def locationDisplay (r : Row) : String :=
  if rowHas r "場所" then
    (if rowGet r "場所" = "" then "（空欄）" else rowGet r "場所")
  else "不明"

/-- Stable de-duplication keeping first occurrences, used below to list each
duplicated facility name once. -/
def dedupKeepFirst (l : List String) : List String :=
  l.foldl (fun acc x => if x ∈ acc then acc else acc ++ [x]) []

/-- The error block `validate_facility_data` prints for one duplicated
facility name (app.py lines 4059-4078): the display name, the size of the
duplicate group, and one line per occurrence with its 1-based CSV row number
(`idx + 2`) and `場所` value. -/
def facilityDupGroupMsg (rows : List Row) (name : String) : String :=
  let display := if name = "" then "（空欄）" else name
  let grp := rows.enum.filter fun p => rowGet p.2 "施設名" == name
  "【施設名: " ++ display ++ "】\n"
    ++ "  重複している行数: " ++ natToString grp.length ++ "行\n"
    ++ String.join (grp.map fun p =>
        "  - CSV行" ++ natToString (p.1 + 2) ++ ": 場所=「" ++ locationDisplay p.2 ++ "」\n")
    ++ "\n"

/-- Embeds `validate_facility_data` (app.py lines 4036-4098): raises on any
duplicated `施設名` value (enumerating, per duplicate group, every source row
number and `場所` value), otherwise raises on any blank `施設名` row (the
blank check is skipped when blanks were already reported as duplicates),
otherwise accepts.  Names are the `fillna('')`-stringified column; pandas
`value_counts` orders duplicate groups by frequency and this embedding keeps
first-appearance order, which coincides for the single-group inputs used
here. -/
def validate_facility_data (rows : List Row) : Except String Unit :=
  let names := rows.map fun r => rowGet r "施設名"
  let facility_duplicates := dedupKeepFirst (names.filter fun n => 1 < names.count n)
  if facility_duplicates ≠ [] then
    .error ("施設情報データ内で重複している施設名が検出されました:\n\n"
      ++ String.join (facility_duplicates.map (facilityDupGroupMsg rows))
      ++ "※ 上記の重複行のうち、不要な行を削除してから再度実行してください。")
  else
    let empty_facility_rows := rows.enum.filter fun p => rowGet p.2 "施設名" == ""
    if empty_facility_rows ≠ [] ∧ "" ∉ facility_duplicates then
      .error ("施設情報データに施設名が空欄の行が存在します:\n\n"
        ++ "空欄の行数: " ++ natToString empty_facility_rows.length ++ "行\n"
        ++ String.join (empty_facility_rows.map fun p =>
            "- CSV行" ++ natToString (p.1 + 2) ++ ": 場所=「" ++ locationDisplay p.2 ++ "」\n")
        ++ "\n※ 上記の空欄行を削除または施設名を入力してから再度実行してください。")
    else .ok ()

/-- Embeds the only post-parse data checks of `validate_facility_csv_file`
(app.py lines 3976-3991): the parsed facility table is accepted as soon as it
is non-empty and has at least one column.  The function returns the dataframe
without ever invoking `validate_facility_data`, and neither do its only
callers (app.py lines 1441 and 2620), so no `施設名` blank/duplicate check
runs during facility ingestion. -/
def facilityCsvPostAccept (cols : List String) (rows : List Row) : Bool :=
  !rows.isEmpty && !cols.isEmpty

/-- A facility table with two rows sharing `施設名` = 児童館A, the failing
input for claim C1. -/
def facilityDupExample : List Row :=
  [[("施設名", "児童館A"), ("場所", "X")],
   [("施設名", "児童館A"), ("場所", "Y")]]

/-- Claim C1 (code bug): `validate_facility_csv_file` accepts a facility
table whose `施設名` column holds a duplicated value, because the
blank/duplicate gate is implemented in `validate_facility_data` but that
function is never called; evaluating the dead gate at the same table produces
exactly the enumerated error (both row numbers, the group size, and both
`場所` values) that the claim attributes to facility ingestion. -/
theorem facility_duplicate_gate_not_wired :
    facilityCsvPostAccept ["施設名", "場所"] facilityDupExample = true
    ∧ validate_facility_data facilityDupExample
        = Except.error ("施設情報データ内で重複している施設名が検出されました:\n\n"
          ++ "【施設名: 児童館A】\n  重複している行数: 2行\n"
          ++ "  - CSV行2: 場所=「X」\n  - CSV行3: 場所=「Y」\n\n"
          ++ "※ 上記の重複行のうち、不要な行を削除してから再度実行してください。")
    ∧ validate_facility_data
        [[("施設名", "児童館A"), ("場所", "X")],
         [("施設名", "児童館B"), ("場所", "Y")]] = Except.ok () := by
  refine ⟨rfl, rfl, rfl⟩

/-- The keys of the 15 validation checkboxes the Import Data Creation page
defines, in grid order (`validation_items`, app.py lines 2704-2720);
`account_issue_date` has no checkbox. -/
def validationItemKeys : List String :=
  ["modification_status", "empty_status", "machine_dependent", "cell_breaks",
   "prohibited_changes", "consecutive_spaces", "alphanumeric", "email",
   "required_fields", "circle_cross", "facility_location", "status_column",
   "website_urls", "weekdays", "business_hours"]

/-- The 16 keys of the engine's own default option map, all mapped to `True`
(`perform_data_validation`, app.py lines 2340-2358), used only when the
caller passes no option map. -/
def defaultValidationOptionKeys : List String :=
  ["modification_status", "empty_status", "machine_dependent", "cell_breaks",
   "prohibited_changes", "consecutive_spaces", "alphanumeric", "email",
   "required_fields", "circle_cross", "facility_location", "status_column",
   "website_urls", "account_issue_date", "weekdays", "business_hours"]

/-- The keys of the engine's synchronous check table, in execution order
(`validation_functions`, app.py lines 2361-2377). -/
def syncValidationKeys : List String :=
  ["modification_status", "empty_status", "machine_dependent", "cell_breaks",
   "prohibited_changes", "consecutive_spaces", "alphanumeric", "email",
   "required_fields", "circle_cross", "facility_location", "status_column",
   "account_issue_date", "weekdays", "business_hours"]

/-- The keys of the asynchronous check table (app.py lines 2380-2382). -/
def asyncValidationKeys : List String :=
  ["website_urls"]

/-- Embeds the check dispatch of `perform_data_validation` (app.py
lines 2388-2410): a check runs iff `validation_options.get(key, False)` is
true, synchronous checks first, then the asynchronous one. -/
def executedValidationKeys (opts : String → Bool) : List String :=
  syncValidationKeys.filter opts ++ asyncValidationKeys.filter opts

/-- The option map the page passes when the operator starts validation with
all checkbox defaults (app.py lines 2756-2763): every displayed key maps to
its default `True`; keys without a checkbox are absent, hence read as
`False` by the dispatch. -/
def pageDefaultOptions : String → Bool :=
  fun key => validationItemKeys.contains key

/-- The engine's own default option map (app.py lines 2340-2358). -/
def engineDefaultOptions : String → Bool :=
  fun key => defaultValidationOptionKeys.contains key

/-- Claim C3 (code bug): the Import Data Creation page defines only 15
validation checkboxes, omitting `account_issue_date`, so starting validation
with all defaults runs 15 checks and never the account-issue-date check —
although the engine's own default option map (used only when no options are
passed) enables all 16 including it. -/
theorem import_page_omits_account_issue_date_checkbox :
    validationItemKeys.length = 15
    ∧ "account_issue_date" ∉ validationItemKeys
    ∧ "account_issue_date" ∉ executedValidationKeys pageDefaultOptions
    ∧ (executedValidationKeys pageDefaultOptions).length = 15
    ∧ "account_issue_date" ∈ executedValidationKeys engineDefaultOptions
    ∧ (executedValidationKeys engineDefaultOptions).length = 16 := by
  decide

theorem rowHas_false_rowGet (r : Row) (c : String) (h : rowHas r c = false) :
    rowGet r c = "" := by
  induction r with
  | nil => rfl
  | cons p r ih =>
    simp only [rowHas, Bool.or_eq_false_iff] at h
    simp only [rowGet, h.1, Bool.false_eq_true, ite_false]
    exact ih h.2

theorem rowGet_overwriteCol (r : Row) (c v c' : String) :
    rowGet (r.map fun p => if p.1 == c then (p.1, v) else p) c' =
      if c' = c ∧ rowHas r c = true then v else rowGet r c' := by
  induction r with
  | nil => simp [rowGet, rowHas]
  | cons p r ih =>
    by_cases hp : p.1 = c
    · by_cases hcc : c' = c
      · subst hcc
        simp [rowGet, rowHas, hp]
      · have hpc' : (p.1 == c') = false := by
          simp only [beq_eq_false_iff_ne, ne_eq, hp]
          exact fun h => hcc h.symm
        have hbc : (p.1 == c) = true := by simp [hp]
        simp only [List.map_cons, hbc, ite_true, rowGet, rowHas, hpc',
          Bool.false_eq_true, ite_false, Bool.true_or, ih]
        simp [hcc]
    · have hbc : (p.1 == c) = false := by simp [hp]
      by_cases hpc : p.1 = c'
      · have hpc' : (p.1 == c') = true := by simp [hpc]
        have hcc : ¬ (c' = c) := by
          intro h
          exact hp (h ▸ hpc)
        simp [rowGet, rowHas, hbc, hpc', hcc]
      · have hpc' : (p.1 == c') = false := by simp [hpc]
        simp only [List.map_cons, hbc, Bool.false_eq_true, ite_false, rowGet,
          rowHas, hpc', ih, Bool.false_or]
    -- both sides skip the head and reduce to the tail

theorem rowGet_append_pair (r : Row) (c v c' : String) :
    rowGet (r ++ [(c, v)]) c' =
      if rowHas r c' = true then rowGet r c'
      else if c' = c then v else "" := by
  induction r with
  | nil =>
    by_cases h : c' = c
    · simp [rowGet, rowHas, h]
    · have hb : (c == c') = false := by
        simp only [beq_eq_false_iff_ne, ne_eq]
        exact fun hh => h hh.symm
      simp [rowGet, rowHas, hb, h]
  | cons p r ih =>
    by_cases hp : p.1 = c'
    · simp [rowGet, rowHas, hp]
    · have h2 : (p.1 == c') = false := by simp [hp]
      simp only [List.cons_append, rowGet, rowHas, h2, Bool.false_eq_true,
        ite_false, Bool.false_or, List.append_eq]
      exact ih

/-- How `setCol` reads back: the written column yields the written value, any
other column is unchanged. -/
theorem rowGet_setCol (r : Row) (c v c' : String) :
    rowGet (setCol r c v) c' = if c' = c then v else rowGet r c' := by
  unfold setCol
  by_cases hhas : rowHas r c = true
  · simp only [hhas, ite_true]
    rw [rowGet_overwriteCol]
    by_cases hc' : c' = c <;> simp [hc', hhas]
  · simp only [hhas, Bool.false_eq_true, ite_false]
    rw [rowGet_append_pair]
    by_cases hc'' : rowHas r c' = true
    · by_cases hc' : c' = c
      · subst hc'
        exact absurd hc'' hhas
      · simp [hc'', hc']
    · have hget : rowGet r c' = "" :=
        rowHas_false_rowGet r c' (by revert hc''; cases rowHas r c' <;> simp)
      by_cases hc' : c' = c
      · subst hc'
        simp [hhas]
      · simp [hc'', hc', hget]

/-- Embeds the baseline order dictionary of `format_for_import` (app.py
lines 3099-3105): every baseline row with a non-blank normalized slug records
its normalized `順番`; a later duplicate slug overwrites the earlier binding
(Python dict assignment), reproduced by `dictLookup` reading the last
binding. -/
def buildOrderDict (origRows : List Row) : List (String × String) :=
  origRows.foldl (fun d r =>
    let slug := normalizeValue (rowGet r "スラッグ")
    if slug ≠ "" then d ++ [(slug, normalizeValue (rowGet r "順番"))] else d) []

/-- Lookup taking the most recent binding, matching Python dict overwrite
semantics for `buildOrderDict`. -/
def dictLookup (d : List (String × String)) (k : String) : Option String :=
  d.reverse.lookup k

/-- Embeds the order pass of `format_for_import` for the row at zero-based
position `idx` (app.py lines 3107-3130): `順番` := position + 1; a row whose
normalized `修正・削除新規` is already 修正, 削除 or 新規追加 is left alone;
otherwise, when the normalized slug is non-blank and present in the baseline
dictionary and the stringified new position differs from the recorded
baseline order, `修正・削除新規` is set to 掲載順. -/
def orderRowUpdate (d : List (String × String)) (idx : Nat) (r : Row) : Row :=
  let r1 := setCol r "順番" (natToString (idx + 1))
  let current_status := normalizeValue (rowGet r1 "修正・削除新規")
  if current_status = "修正" ∨ current_status = "削除" ∨ current_status = "新規追加" then
    r1
  else
    let slug := normalizeValue (rowGet r1 "スラッグ")
    if slug ≠ "" then
      match dictLookup d slug with
      | some original_order =>
        if natToString (idx + 1) ≠ original_order then
          setCol r1 "修正・削除新規" "掲載順"
        else r1
      | none => r1
    else r1

/-- Embeds the order-renumbering stage of `format_for_import` (app.py
lines 3095-3130): after `reset_index(drop=True)` the rows are processed by
position. -/
def formatOrderPass (rows origRows : List Row) : List Row :=
  let d := buildOrderDict origRows
  rows.enum.map fun p => orderRowUpdate d p.1 p.2

theorem formatOrderPass_getD (rows origRows : List Row) (i : Nat)
    (hi : i < rows.length) :
    (formatOrderPass rows origRows).getD i []
      = orderRowUpdate (buildOrderDict origRows) i (rows.getD i []) := by
  unfold formatOrderPass
  rw [List.getD_eq_getElem?_getD, List.getElem?_map]
  rw [List.getElem?_enum]
  rw [List.getElem?_eq_getElem (by simpa using hi)]
  simp [List.getD_eq_getElem?_getD, List.getElem?_eq_getElem hi]

/-- Claim C6: the import formatter's order pass sets `順番` to the 1-based
position of every row; a row whose `修正・削除新規` already reads 修正, 削除
or 新規追加 keeps it; any other row whose slug is recorded in the baseline
gets `修正・削除新規` = 掲載順 exactly when its new position differs from the
baseline's recorded `順番`, and keeps its value when the position matches. -/
theorem import_order_renumbering (rows origRows : List Row) (i : Nat)
    (hi : i < rows.length) :
    rowGet ((formatOrderPass rows origRows).getD i []) "順番" = natToString (i + 1)
    ∧ ((normalizeValue (rowGet (rows.getD i []) "修正・削除新規") = "修正"
        ∨ normalizeValue (rowGet (rows.getD i []) "修正・削除新規") = "削除"
        ∨ normalizeValue (rowGet (rows.getD i []) "修正・削除新規") = "新規追加") →
        rowGet ((formatOrderPass rows origRows).getD i []) "修正・削除新規"
          = rowGet (rows.getD i []) "修正・削除新規")
    ∧ (∀ o : String,
        ¬ (normalizeValue (rowGet (rows.getD i []) "修正・削除新規") = "修正"
          ∨ normalizeValue (rowGet (rows.getD i []) "修正・削除新規") = "削除"
          ∨ normalizeValue (rowGet (rows.getD i []) "修正・削除新規") = "新規追加") →
        dictLookup (buildOrderDict origRows)
            (normalizeValue (rowGet (rows.getD i []) "スラッグ")) = some o →
        normalizeValue (rowGet (rows.getD i []) "スラッグ") ≠ "" →
        ((natToString (i + 1) ≠ o →
            rowGet ((formatOrderPass rows origRows).getD i []) "修正・削除新規" = "掲載順")
          ∧ (natToString (i + 1) = o →
            rowGet ((formatOrderPass rows origRows).getD i []) "修正・削除新規"
              = rowGet (rows.getD i []) "修正・削除新規"))) := by
  rw [formatOrderPass_getD rows origRows i hi]
  set src := rows.getD i [] with hsrc
  have hstat : rowGet (setCol src "順番" (natToString (i + 1))) "修正・削除新規"
      = rowGet src "修正・削除新規" := by
    rw [rowGet_setCol]
    simp
  have hslug : rowGet (setCol src "順番" (natToString (i + 1))) "スラッグ"
      = rowGet src "スラッグ" := by
    rw [rowGet_setCol]
    simp
  unfold orderRowUpdate
  dsimp only
  rw [hstat, hslug]
  refine ⟨?_, ?_, ?_⟩
  · by_cases h1 : normalizeValue (rowGet src "修正・削除新規") = "修正"
        ∨ normalizeValue (rowGet src "修正・削除新規") = "削除"
        ∨ normalizeValue (rowGet src "修正・削除新規") = "新規追加"
    · rw [if_pos h1, rowGet_setCol]
      simp
    · rw [if_neg h1]
      by_cases h2 : normalizeValue (rowGet src "スラッグ") ≠ ""
      · rw [if_pos h2]
        cases hdict : dictLookup (buildOrderDict origRows)
            (normalizeValue (rowGet src "スラッグ")) with
        | none =>
          dsimp only
          rw [rowGet_setCol]
          simp
        | some o =>
          dsimp only
          by_cases h3 : natToString (i + 1) ≠ o
          · rw [if_pos h3, rowGet_setCol, rowGet_setCol]
            simp
          · rw [if_neg h3, rowGet_setCol]
            simp
      · rw [if_neg h2, rowGet_setCol]
        simp
  · intro htriple
    rw [if_pos htriple, rowGet_setCol]
    simp
  · intro o htriple hdict hs
    rw [if_neg htriple, if_pos hs, hdict]
    dsimp only
    constructor
    · intro hneq
      rw [if_pos hneq, rowGet_setCol]
      simp
    · intro heq
      rw [if_neg (by simp [heq]), rowGet_setCol]
      simp

/-- Claim C6 witness: baseline order for slug S is 5; after the edit S sits
at 1-based position 3 with a blank status, so the order pass sets its
`修正・削除新規` to 掲載順 and its `順番` to 3. -/
theorem import_order_renumbering_witness :
    rowGet ((formatOrderPass
        [[("スラッグ", "A"), ("修正・削除新規", "")],
         [("スラッグ", "B"), ("修正・削除新規", "")],
         [("スラッグ", "S"), ("修正・削除新規", "")]]
        [[("スラッグ", "S"), ("順番", "5")]]).getD 2 []) "修正・削除新規" = "掲載順"
    ∧ rowGet ((formatOrderPass
        [[("スラッグ", "A"), ("修正・削除新規", "")],
         [("スラッグ", "B"), ("修正・削除新規", "")],
         [("スラッグ", "S"), ("修正・削除新規", "")]]
        [[("スラッグ", "S"), ("順番", "5")]]).getD 2 []) "順番" = natToString 3 := by
  have h := import_order_renumbering
    [[("スラッグ", "A"), ("修正・削除新規", "")],
     [("スラッグ", "B"), ("修正・削除新規", "")],
     [("スラッグ", "S"), ("修正・削除新規", "")]]
    [[("スラッグ", "S"), ("順番", "5")]] 2 (by decide)
  exact ⟨(h.2.2 "5" (by decide) (by decide) (by decide)).1 (by decide), h.1⟩

/-- The 3 account-related columns (app.py line 3159 and line 1591). -/
def accountColumns : List String :=
  ["ｱｶｳﾝﾄ発行有無", "ｱｶｳﾝﾄ発行年月", "アカウント発行の登録用メールアドレス"]

/-- Embeds `original_data[original_data['スラッグ'] == slug]` followed by
`.iloc[0]`: the first baseline row whose raw `スラッグ` equals the given
slug. -/
def findOriginalRow (origRows : List Row) (slug : String) : Option Row :=
  origRows.find? fun r => rowGet r "スラッグ" == slug

/-- The columns excluded from the non-account difference scans: the
modification-status column followed by the 3 account columns — the same
exclusion list in `validate_modification_status` (app.py line 1591, written
out) and `is_only_account_related_change` (app.py line 3162, written
`['修正・削除新規'] + account_columns`). -/
def modificationExcludedColumns : List String :=
  ["修正・削除新規", "ｱｶｳﾝﾄ発行有無", "ｱｶｳﾝﾄ発行年月", "アカウント発行の登録用メールアドレス"]

/-- The difference scan shared by the 修正 branch of
`validate_modification_status` (app.py lines 1592-1602, over the table's
columns) and `is_only_account_related_change` (app.py lines 3163-3174, over
the row's labels): some non-excluded column present on the baseline row whose
normalized value differs. -/
def nonAccountChangedOver (labels : List String) (row originalRow : Row) : Bool :=
  (labels.filter fun col => !(modificationExcludedColumns.contains col)).any
    fun col =>
      rowHas originalRow col &&
        (normalizeValue (rowGet row col) != normalizeValue (rowGet originalRow col))

/-- The account-column scan of `is_only_account_related_change` (app.py
lines 3176-3185): some account column present on both rows whose normalized
value differs. -/
def accountColumnsChanged (row originalRow : Row) : Bool :=
  accountColumns.any fun col =>
    rowHas row col && rowHas originalRow col &&
      (normalizeValue (rowGet row col) != normalizeValue (rowGet originalRow col))

/-- Embeds `is_only_account_related_change` (app.py lines 3134-3188): against
the baseline row matched by the stripped slug, true iff at least one of the
3 account columns (present on both rows) differs after normalization and no
other column of the row — excluding `修正・削除新規` and the account columns
— differs. -/
def is_only_account_related_change (mainRow : Row) (origRows : List Row) : Bool :=
  let slug := pyStrip (rowGet mainRow "スラッグ")
  if slug = "" then false
  else
    match findOriginalRow origRows slug with
    | none => false
    | some originalRow =>
      let hasNonAccountChange := nonAccountChangedOver (rowKeys mainRow) mainRow originalRow
      let hasAccountChange := accountColumnsChanged mainRow originalRow
      hasAccountChange && !hasNonAccountChange

/-- The allowed values of `修正・削除新規` (app.py line 1572). -/
def validStatuses : List String :=
  ["修正", "新規追加", "掲載順", "削除"]

/-- Embeds one row of `validate_modification_status` (app.py lines 1574-1637):
the fragment list accumulated for the row, in order — the invalid-value
fragment, then the branch for the row's normalized status (修正: flag
"claims modify, nothing changed" when a baseline row matches, no non-excluded
column differs and the change is not account-only; 新規追加: slug must be
blank and HP掲載可 must be ○; 掲載順: the order must differ from the
baseline). -/
def validateModificationStatusRow (cols : List String) (row : Row)
    (origRows : List Row) : List String :=
  let status := normalizeValue (rowGet row "修正・削除新規")
  let invalidValueErrors : List String :=
    if status ≠ "" ∧ ¬ validStatuses.contains status then
      [get_column_position_text cols "修正・削除新規"
        ++ "修正・削除新規列に、次の値以外が入力されています。(修正・新規追加・掲載順・削除)"]
    else []
  let branchErrors : List String :=
    if status = "修正" then
      let slug := pyStrip (rowGet row "スラッグ")
      if slug ≠ "" then
        match findOriginalRow origRows slug with
        | some originalRow =>
          let hasDifference := nonAccountChangedOver cols row originalRow
          if ¬ hasDifference then
            if ¬ is_only_account_related_change row origRows then
              [get_column_position_text cols "修正・削除新規"
                ++ "修正にもかかわらず、値が変更されていません"]
            else []
          else []
        | none => []
      else []
    else if status = "新規追加" then
      (let slug := normalizeValue (rowGet row "スラッグ")
       if slug ≠ "" then
         [get_column_position_text cols "スラッグ"
           ++ "新規追加にもかかわらずスラッグ列に値が入力されています"]
       else [])
      ++ (let hp := normalizeValue (rowGet row "HP掲載可")
          if hp ≠ "○" then
            [get_column_position_text cols "修正・削除新規"
              ++ "修正・削除新規列が「新規追加」ですが"
              ++ get_column_position_text cols "HP掲載可"
              ++ "HP掲載可列の値が「○」ではありません"]
          else [])
    else if status = "掲載順" then
      let slug := pyStrip (rowGet row "スラッグ")
      if slug ≠ "" then
        match findOriginalRow origRows slug with
        | some originalRow =>
          if normalizeValue (rowGet row "順番")
              = normalizeValue (rowGet originalRow "順番") then
            [get_column_position_text cols "順番"
              ++ "「掲載順」ステータスが振られていますが、順番が変わっていません"]
          else []
        | none => []
      else []
    else []
  invalidValueErrors ++ branchErrors

/-- The "claims modify, nothing changed" fragment of check #1 (app.py
line 1608). -/
def noChangeFlagMsg (cols : List String) : String :=
  get_column_position_text cols "修正・削除新規"
    ++ "修正にもかかわらず、値が変更されていません"

/-- Claim C5: for a 修正 row whose stripped slug matches a baseline row, an
account-only change — at least one of the 3 account columns differs while
every other column except the modification-status column matches — is not
flagged "claims modify, nothing changed"; conversely, such a row with no
difference outside the excluded columns that is not an account-only change is
flagged. -/
theorem modification_status_account_only_exemption
    (cols : List String) (row : Row) (origRows : List Row) (originalRow : Row)
    (hkeys : rowKeys row = cols)
    (hstatus : normalizeValue (rowGet row "修正・削除新規") = "修正")
    (hslug : pyStrip (rowGet row "スラッグ") ≠ "")
    (hfound : findOriginalRow origRows (pyStrip (rowGet row "スラッグ"))
        = some originalRow) :
    ((∃ c ∈ accountColumns, rowHas row c = true ∧ rowHas originalRow c = true
        ∧ normalizeValue (rowGet row c) ≠ normalizeValue (rowGet originalRow c)) →
      (∀ c ∈ cols, c ∉ accountColumns → c ≠ "修正・削除新規" →
        rowHas originalRow c = true →
        normalizeValue (rowGet row c) = normalizeValue (rowGet originalRow c)) →
      noChangeFlagMsg cols ∉ validateModificationStatusRow cols row origRows)
    ∧ ((∀ c ∈ cols, c ∉ modificationExcludedColumns →
          rowHas originalRow c = true →
          normalizeValue (rowGet row c) = normalizeValue (rowGet originalRow c)) →
        is_only_account_related_change row origRows = false →
        noChangeFlagMsg cols ∈ validateModificationStatusRow cols row origRows) := by
  have hnodiffOf :
      (∀ c ∈ cols, c ∉ modificationExcludedColumns →
        rowHas originalRow c = true →
        normalizeValue (rowGet row c) = normalizeValue (rowGet originalRow c)) →
      nonAccountChangedOver cols row originalRow = false := by
    intro hnone
    unfold nonAccountChangedOver
    rw [List.any_eq_false]
    intro col hcol
    rw [List.mem_filter] at hcol
    obtain ⟨hmem, hnotex⟩ := hcol
    have hnx : col ∉ modificationExcludedColumns := by
      simpa using hnotex
    cases hhas : rowHas originalRow col with
    | false => simp
    | true =>
      have := hnone col hmem hnx hhas
      simp [this]
  constructor
  · intro hacct hother
    have hnodiff : nonAccountChangedOver cols row originalRow = false := by
      apply hnodiffOf
      intro c hc hnx hhas
      have hns : c ≠ "修正・削除新規" := by
        intro h
        exact hnx (by rw [h]; decide)
      have hna : c ∉ accountColumns := by
        intro h
        apply hnx
        revert h
        unfold accountColumns modificationExcludedColumns
        intro h
        simpa using Or.inr (by simpa using h)
      exact hother c hc hna hns hhas
    have honly : is_only_account_related_change row origRows = true := by
      unfold is_only_account_related_change
      rw [if_neg (by simpa using hslug), hfound]
      dsimp only
      rw [hkeys, hnodiff]
      obtain ⟨c, hc, h1, h2, h3⟩ := hacct
      have hany : accountColumnsChanged row originalRow = true := by
        unfold accountColumnsChanged
        rw [List.any_eq_true]
        exact ⟨c, hc, by simp [h1, h2, h3]⟩
      rw [hany]
      rfl
    have hempty : validateModificationStatusRow cols row origRows = [] := by
      unfold validateModificationStatusRow
      rw [hstatus]
      simp [validStatuses, hslug, hfound, hnodiff, honly]
    rw [hempty]
    simp
  · intro hnone hnotonly
    have hnodiff : nonAccountChangedOver cols row originalRow = false :=
      hnodiffOf hnone
    have hflag : validateModificationStatusRow cols row origRows
        = [noChangeFlagMsg cols] := by
      unfold validateModificationStatusRow noChangeFlagMsg
      rw [hstatus]
      simp [validStatuses, hslug, hfound, hnodiff, hnotonly]
    rw [hflag]
    simp

/-- Claim C5 witness: a concrete 修正 row whose only difference against the
baseline is the account-issue flag is not flagged. -/
theorem modification_status_account_only_exemption_witness :
    noChangeFlagMsg ["スラッグ", "サークル名", "修正・削除新規", "ｱｶｳﾝﾄ発行有無"]
      ∉ validateModificationStatusRow
        ["スラッグ", "サークル名", "修正・削除新規", "ｱｶｳﾝﾄ発行有無"]
        [("スラッグ", "c1"), ("サークル名", "すくすく会"),
         ("修正・削除新規", "修正"), ("ｱｶｳﾝﾄ発行有無", "○")]
        [[("スラッグ", "c1"), ("サークル名", "すくすく会"),
          ("修正・削除新規", ""), ("ｱｶｳﾝﾄ発行有無", "")]] :=
  (modification_status_account_only_exemption
    ["スラッグ", "サークル名", "修正・削除新規", "ｱｶｳﾝﾄ発行有無"]
    [("スラッグ", "c1"), ("サークル名", "すくすく会"),
     ("修正・削除新規", "修正"), ("ｱｶｳﾝﾄ発行有無", "○")]
    [[("スラッグ", "c1"), ("サークル名", "すくすく会"),
      ("修正・削除新規", ""), ("ｱｶｳﾝﾄ発行有無", "")]]
    [("スラッグ", "c1"), ("サークル名", "すくすく会"),
     ("修正・削除新規", ""), ("ｱｶｳﾝﾄ発行有無", "")]
    (by decide) (by decide) (by decide) (by decide)).1
    (by decide) (by decide)

/-- Embeds the leading-`@` strip of `validate_website_urls` (app.py
lines 1990-1991): `value[1:]` when the value starts with `@`. -/
def stripLeadingAt (s : String) : String :=
  match s.data with
  | '@' :: rest => String.mk rest
  | _ => s

/-- Embeds the collection loop of `validate_website_urls` (app.py
lines 1982-1994): rows are scanned in order; a blank (normalized) `Webサイト`
value appends an empty fragment to the error list, a non-blank value appends
the pair (row index, `@`-stripped value) to `urls_to_check`. -/
def scanWebsite (vals : List String) : List (Nat × String) × List String :=
  vals.enum.foldl
    (fun acc p =>
      let value := normalizeValue p.2
      if value = "" then (acc.1, acc.2 ++ [""])
      else (acc.1 ++ [(p.1, stripLeadingAt value)], acc.2))
    ([], [])

/-- Embeds the error-slot write of `validate_website_urls` (app.py
lines 2022-2023, 2036): extend the list with empty strings up to position
`i` when it is too short, then set position `i`. -/
def writeAt (l : List String) (i : Nat) (v : String) : List String :=
  let l' := if l.length ≤ i then l ++ List.replicate (i + 1 - l.length) "" else l
  l'.set i v

/-- Recursion core of Python's `str.replace` (all non-overlapping occurrences,
left to right); `fuel` is a structural bound on the scanned length (any
`fuel ≥ length of the list` suffices), present only to make the definition
kernel-reducible. -/
def replaceAllGo (pat repl : List Char) : Nat → List Char → List Char
  | 0, l => l
  | fuel + 1, l =>
    match l with
    | [] => []
    | c :: cs =>
      if pat ≠ [] ∧ leadsWith pat (c :: cs) = true then
        repl ++ replaceAllGo pat repl fuel ((c :: cs).drop pat.length)
      else c :: replaceAllGo pat repl fuel cs

/-- Embeds Python's `str.replace(pat, repl)`. -/
def pyReplaceAll (s pat repl : String) : String :=
  String.mk (replaceAllGo pat.data repl.data s.data.length s.data)

/-- Embeds the diagnostic decoration of `validate_website_urls` (app.py
lines 2026-2036): an empty diagnostic is stored as is; otherwise the column
position text is spliced in front of the `Webサイト列で` / `Webサイト列`
prefix via `str.replace`, or simply prepended. -/
def decorateUrlMsg (colPos msg : String) : String :=
  if msg = "" then ""
  else if leadsWith "Webサイト列で".data msg.data then
    pyReplaceAll msg "Webサイト列で" (colPos ++ "Webサイト列で")
  else if leadsWith "Webサイト列".data msg.data then
    pyReplaceAll msg "Webサイト列" (colPos ++ "Webサイト列")
  else colPos ++ msg

/-- Embeds the final padding loop of `validate_website_urls` (app.py
lines 2057-2058). -/
def padTo (l : List String) (n : Nat) : List String :=
  l ++ List.replicate (n - l.length) ""

/-- Embeds `validate_website_urls` (app.py lines 1958-2060) over the
`Webサイト` column values of the main table, with the URL-liveness primitive
`is_url_alive` abstracted as a pure function `f` from URL to diagnostic
(empty diagnostic = no problem).  Returns the list of URLs the primitive is
invoked on, in visit order, and the per-row error-fragment list.  The
module-import-failure and aiohttp-failure degradation branches (lines 1967-1973 and
2042-2048) lie outside the abstraction. -/
def validate_website_urls (f : String → String) (cols : List String)
    (vals : List String) : List String × List String :=
  if ¬ cols.contains "Webサイト" = true then ([], List.replicate vals.length "")
  else
    let scanned := scanWebsite vals
    let urls_to_check := scanned.1
    let errors0 := scanned.2
    if urls_to_check = [] then ([], errors0)
    else
      let colPos := get_column_position_text cols "Webサイト"
      let errors := urls_to_check.foldl
        (fun e p => writeAt e p.1 (decorateUrlMsg colPos (f p.2))) errors0
      (urls_to_check.map Prod.snd, padTo errors vals.length)

/-- Embeds the fragment union of `perform_data_validation` (app.py
lines 2422-2426): the fragments contributing to row `i`, across all executed
checks, in check order. -/
def combineRowParts (allErrors : List (List String)) (i : Nat) : List String :=
  allErrors.filterMap fun errorList =>
    if i < errorList.length ∧ errorList.getD i "" ≠ "" then
      some (errorList.getD i "")
    else none

/-- Embeds the consolidated `エラー` column of `perform_data_validation`
(app.py lines 2421-2429): per row, the comma-join of its non-empty
fragments. -/
def combineErrors (allErrors : List (List String)) (n : Nat) : List String :=
  (List.range n).map fun i => String.intercalate ", " (combineRowParts allErrors i)

/-- The (row index, stripped URL) pairs `scanWebsite` collects from the rows
at positions `k, k+1, …`. -/
def websitePairsFrom (k : Nat) (vals : List String) : List (Nat × String) :=
  (List.enumFrom k vals).filterMap fun p =>
    if normalizeValue p.2 = "" then none
    else some (p.1, stripLeadingAt (normalizeValue p.2))

theorem websitePairsFrom_cons (k : Nat) (v : String) (vs : List String) :
    websitePairsFrom k (v :: vs) =
      (if normalizeValue v = "" then []
       else [(k, stripLeadingAt (normalizeValue v))]) ++ websitePairsFrom (k + 1) vs := by
  unfold websitePairsFrom
  rw [List.enumFrom_cons, List.filterMap_cons]
  by_cases h : normalizeValue v = "" <;> simp [h]

theorem scanWebsite_go (vals : List String) (k : Nat)
    (acc : List (Nat × String) × List String) :
    (List.enumFrom k vals).foldl
      (fun acc p =>
        let value := normalizeValue p.2
        if value = "" then (acc.1, acc.2 ++ [""])
        else (acc.1 ++ [(p.1, stripLeadingAt value)], acc.2)) acc
      = (acc.1 ++ websitePairsFrom k vals,
         acc.2 ++ List.replicate (vals.filter fun v => normalizeValue v = "").length "") := by
  induction vals generalizing k acc with
  | nil => simp [websitePairsFrom]
  | cons v vs ih =>
    rw [List.enumFrom_cons, List.foldl_cons]
    dsimp only
    by_cases h : normalizeValue v = ""
    · rw [if_pos h, ih, websitePairsFrom_cons, if_pos h]
      simp [h, List.filter_cons, List.replicate_succ, List.append_assoc]
    · rw [if_neg h, ih, websitePairsFrom_cons, if_neg h]
      simp [h, List.filter_cons, List.append_assoc]

theorem scanWebsite_eq (vals : List String) :
    scanWebsite vals = (websitePairsFrom 0 vals,
      List.replicate (vals.filter fun v => normalizeValue v = "").length "") := by
  unfold scanWebsite
  rw [show vals.enum = List.enumFrom 0 vals from rfl]
  rw [scanWebsite_go vals 0 ([], [])]
  simp

theorem websitePairsFrom_snd (k : Nat) (vals : List String) :
    (websitePairsFrom k vals).map Prod.snd
      = vals.filterMap fun v =>
          if normalizeValue v = "" then none
          else some (stripLeadingAt (normalizeValue v)) := by
  induction vals generalizing k with
  | nil => simp [websitePairsFrom]
  | cons v vs ih =>
    rw [websitePairsFrom_cons, List.filterMap_cons, List.map_append, ih]
    by_cases h : normalizeValue v = "" <;> simp [h]

theorem websitePairsFrom_key_bound (vals : List String) (k : Nat) :
    ∀ q ∈ websitePairsFrom k vals, k ≤ q.1 ∧ q.1 < k + vals.length := by
  induction vals generalizing k with
  | nil => simp [websitePairsFrom]
  | cons v vs ih =>
    intro q hq
    rw [websitePairsFrom_cons, List.mem_append] at hq
    rcases hq with hq | hq
    · by_cases h : normalizeValue v = ""
      · rw [if_pos h] at hq
        simp at hq
      · rw [if_neg h] at hq
        simp only [List.mem_singleton] at hq
        subst hq
        simp
    · have := ih (k + 1) q hq
      constructor <;> [omega; (simp only [List.length_cons]; omega)]

theorem websitePairsFrom_length_add (vals : List String) (k : Nat) :
    (vals.filter fun v => normalizeValue v = "").length
      + (websitePairsFrom k vals).length = vals.length := by
  induction vals generalizing k with
  | nil => simp [websitePairsFrom]
  | cons v vs ih =>
    rw [websitePairsFrom_cons, List.filter_cons]
    have hih := ih (k + 1)
    by_cases h : normalizeValue v = ""
    · simp only [h, decide_True, ite_true, List.nil_append, List.length_cons,
        if_true]
      omega
    · simp [h]
      omega

theorem find?_key_none (ps : List (Nat × String)) (j : Nat)
    (h : j ∉ ps.map Prod.fst) :
    ps.find? (fun p => p.1 == j) = none := by
  induction ps with
  | nil => rfl
  | cons p ps ih =>
    simp only [List.map_cons, List.mem_cons, not_or] at h
    have hb : (p.1 == j) = false := by
      simp only [beq_eq_false_iff_ne, ne_eq]
      exact fun hh => h.1 hh.symm
    rw [List.find?_cons, hb]
    exact ih h.2

theorem websitePairsFrom_find? (vals : List String) (k j : Nat) :
    (websitePairsFrom k vals).find? (fun p => p.1 == k + j)
      = if j < vals.length then
          (if normalizeValue (vals.getD j "") = "" then none
           else some (k + j, stripLeadingAt (normalizeValue (vals.getD j ""))))
        else none := by
  induction vals generalizing k j with
  | nil => simp [websitePairsFrom]
  | cons v vs ih =>
    rw [websitePairsFrom_cons]
    by_cases h : normalizeValue v = ""
    · rw [if_pos h, List.nil_append]
      cases j with
      | zero =>
        have hnone : (websitePairsFrom (k + 1) vs).find? (fun p => p.1 == k + 0) = none := by
          apply find?_key_none
          intro hmem
          rw [List.mem_map] at hmem
          obtain ⟨q, hq, hkey⟩ := hmem
          have := websitePairsFrom_key_bound vs (k + 1) q hq
          omega
        rw [hnone]
        simp [h]
      | succ j' =>
        have harith : k + (j' + 1) = (k + 1) + j' := by omega
        rw [harith, ih]
        simp only [List.length_cons, List.getD_cons_succ]
        rw [show (k + 1) + j' = k + (j' + 1) from by omega]
        by_cases hj : j' < vs.length <;> simp [hj, Nat.succ_lt_succ_iff]
    · rw [if_neg h, List.singleton_append, List.find?_cons]
      cases j with
      | zero =>
        have hb : (k == k + 0) = true := by simp
        rw [hb]
        simp [h]
      | succ j' =>
        have hb : (k == k + (j' + 1)) = false := by
          simp only [beq_eq_false_iff_ne, ne_eq]
          omega
        rw [hb]
        have harith : k + (j' + 1) = (k + 1) + j' := by omega
        rw [harith, ih]
        simp only [List.length_cons, List.getD_cons_succ]
        rw [show (k + 1) + j' = k + (j' + 1) from by omega]
        by_cases hj : j' < vs.length <;> simp [hj, Nat.succ_lt_succ_iff]

theorem replicateEmpty_getD (m j : Nat) :
    (List.replicate m ("" : String)).getD j "" = "" := by
  rw [List.getD_eq_getElem?_getD, List.getElem?_replicate]
  split <;> simp

theorem getD_default_of_le (l : List String) (j : Nat) (h : l.length ≤ j) :
    l.getD j "" = "" := by
  rw [List.getD_eq_getElem?_getD, List.getElem?_eq_none h]
  rfl

theorem writeAt_length (l : List String) (i : Nat) (v : String) :
    (writeAt l i v).length = max l.length (i + 1) := by
  unfold writeAt
  dsimp only
  split_ifs with h
  · rw [List.length_set, List.length_append, List.length_replicate]
    omega
  · rw [List.length_set]
    omega

theorem writeAt_getD (l : List String) (i j : Nat) (v : String) :
    (writeAt l i v).getD j "" = if j = i then v else l.getD j "" := by
  unfold writeAt
  dsimp only
  by_cases hij : j = i
  · subst hij
    rw [if_pos rfl]
    split_ifs with h
    · have hlen : j < (l ++ List.replicate (j + 1 - l.length) "").length := by
        rw [List.length_append, List.length_replicate]
        omega
      rw [List.getD_eq_getElem?_getD, List.getElem?_set_self']
      simp [List.getElem?_eq_getElem hlen]
    · have hlen : j < l.length := by omega
      rw [List.getD_eq_getElem?_getD, List.getElem?_set_self']
      simp [List.getElem?_eq_getElem hlen]
  · rw [if_neg hij]
    have hne : i ≠ j := fun hh => hij hh.symm
    split_ifs with h
    · rw [List.getD_eq_getElem?_getD, List.getElem?_set_ne hne,
        ← List.getD_eq_getElem?_getD]
      by_cases hj : j < l.length
      · rw [List.getD_append _ _ _ _ hj]
      · rw [List.getD_eq_getElem?_getD,
          List.getElem?_append_right (by omega), ← List.getD_eq_getElem?_getD,
          replicateEmpty_getD, getD_default_of_le l j (by omega)]
    · rw [List.getD_eq_getElem?_getD, List.getElem?_set_ne hne,
        ← List.getD_eq_getElem?_getD]

theorem foldWrite_getD (w : Nat × String → String) (ps : List (Nat × String))
    (init : List String) (j : Nat) (hnd : (ps.map Prod.fst).Nodup) :
    (ps.foldl (fun e p => writeAt e p.1 (w p)) init).getD j ""
      = match ps.find? (fun p => p.1 == j) with
        | some p => w p
        | none => init.getD j "" := by
  induction ps generalizing init with
  | nil => rfl
  | cons p ps ih =>
    rw [List.foldl_cons]
    simp only [List.map_cons, List.nodup_cons] at hnd
    rw [ih _ hnd.2, List.find?_cons]
    by_cases hj : p.1 = j
    · have hb : (p.1 == j) = true := by simp [hj]
      rw [hb]
      have hnone : ps.find? (fun q => q.1 == j) = none := by
        apply find?_key_none
        rw [← hj]
        exact hnd.1
      rw [hnone]
      rw [writeAt_getD]
      simp [hj.symm]
    · have hb : (p.1 == j) = false := by simp [hj]
      rw [hb]
      cases hf : ps.find? (fun q => q.1 == j) with
      | some q => rfl
      | none =>
        rw [writeAt_getD]
        rw [if_neg (fun hh => hj hh.symm)]

theorem foldWrite_length_le (w : Nat × String → String)
    (ps : List (Nat × String)) (init : List String) (n : Nat)
    (hkeys : ∀ q ∈ ps, q.1 < n) (hinit : init.length ≤ n) :
    (ps.foldl (fun e p => writeAt e p.1 (w p)) init).length ≤ n := by
  induction ps generalizing init with
  | nil => exact hinit
  | cons p ps ih =>
    rw [List.foldl_cons]
    apply ih
    · intro q hq
      exact hkeys q (List.mem_cons_of_mem _ hq)
    · rw [writeAt_length]
      have := hkeys p (List.mem_cons_self _ _)
      omega

theorem padTo_getD (l : List String) (n j : Nat) :
    (padTo l n).getD j "" = l.getD j "" := by
  unfold padTo
  by_cases hj : j < l.length
  · rw [List.getD_append _ _ _ _ hj]
  · rw [List.getD_eq_getElem?_getD, List.getElem?_append_right (by omega),
      ← List.getD_eq_getElem?_getD, replicateEmpty_getD,
      getD_default_of_le l j (by omega)]

theorem padTo_length (l : List String) (n : Nat) (h : l.length ≤ n) :
    (padTo l n).length = n := by
  unfold padTo
  rw [List.length_append, List.length_replicate]
  omega

theorem websitePairsFrom_keys_nodup (vals : List String) (k : Nat) :
    ((websitePairsFrom k vals).map Prod.fst).Nodup := by
  induction vals generalizing k with
  | nil => simp [websitePairsFrom]
  | cons v vs ih =>
    rw [websitePairsFrom_cons, List.map_append]
    by_cases h : normalizeValue v = ""
    · rw [if_pos h]
      simpa using ih (k + 1)
    · rw [if_neg h]
      simp only [List.map_cons, List.map_nil, List.singleton_append,
        List.nodup_cons]
      refine ⟨?_, ih (k + 1)⟩
      intro hmem
      rw [List.mem_map] at hmem
      obtain ⟨q, hq, hkey⟩ := hmem
      have := websitePairsFrom_key_bound vs (k + 1) q hq
      omega

/-- Claim C7 counterexample: two rows share the same non-blank `Webサイト`
value; the check invokes the liveness primitive once per row — the trace
holds the value twice — instead of visiting each distinct value once as the
claim states. -/
theorem website_urls_revisits_duplicate_value :
    (validate_website_urls (fun _ => "") ["Webサイト"]
        ["http://a.example", "http://a.example"]).1
      = ["http://a.example", "http://a.example"]
    ∧ ¬ ((validate_website_urls (fun _ => "") ["Webサイト"]
        ["http://a.example", "http://a.example"]).1).count "http://a.example" = 1 := by
  decide

/-- Claim C7 (amended): for every behaviour of the URL-liveness primitive
(modelled as a function from URL to diagnostic) and every main table with a
`Webサイト` column, the check visits the value of each non-blank row once per
row in row order (a value shared by several rows is visited once per such
row, not deduplicated, each visit with the leading `@` stripped), and places
each produced diagnostic — decorated with the column position — in the
error-list position of the row it came from, blank rows receiving an empty
fragment; a non-empty fragment is then among the parts unioned into that
row's `エラー` entry. -/
theorem website_urls_per_row_placement (f : String → String)
    (cols : List String) (vals : List String)
    (hcol : cols.contains "Webサイト" = true) :
    (validate_website_urls f cols vals).1
        = vals.filterMap (fun v =>
            if normalizeValue v = "" then none
            else some (stripLeadingAt (normalizeValue v)))
    ∧ ((validate_website_urls f cols vals).2).length = vals.length
    ∧ (∀ i, i < vals.length →
        ((validate_website_urls f cols vals).2).getD i ""
          = (if normalizeValue (vals.getD i "") = "" then ""
             else decorateUrlMsg (get_column_position_text cols "Webサイト")
               (f (stripLeadingAt (normalizeValue (vals.getD i ""))))))
    ∧ (∀ (allErrors : List (List String)) (i : Nat), i < vals.length →
        (validate_website_urls f cols vals).2 ∈ allErrors →
        ((validate_website_urls f cols vals).2).getD i "" ≠ "" →
        ((validate_website_urls f cols vals).2).getD i ""
          ∈ combineRowParts allErrors i) := by
  have hblen := websitePairsFrom_length_add vals 0
  have hmain : (validate_website_urls f cols vals).1
        = (websitePairsFrom 0 vals).map Prod.snd
      ∧ ((validate_website_urls f cols vals).2).length = vals.length
      ∧ (∀ i, i < vals.length →
          ((validate_website_urls f cols vals).2).getD i ""
            = match (websitePairsFrom 0 vals).find? (fun p => p.1 == i) with
              | some p => decorateUrlMsg (get_column_position_text cols "Webサイト") (f p.2)
              | none => "") := by
    unfold validate_website_urls
    rw [if_neg (by rw [hcol]; simp)]
    rw [scanWebsite_eq]
    dsimp only
    by_cases hempty : websitePairsFrom 0 vals = []
    · rw [if_pos hempty]
      have hall : (vals.filter fun v => normalizeValue v = "").length = vals.length := by
        rw [hempty] at hblen
        simpa using hblen
      refine ⟨by rw [hempty]; rfl, by simp [hall], ?_⟩
      intro i _
      rw [hempty]
      simp only [List.find?_nil]
      exact replicateEmpty_getD _ i
    · rw [if_neg hempty]
      refine ⟨rfl, ?_, ?_⟩
      · rw [padTo_length]
        apply foldWrite_length_le
        · intro q hq
          have := websitePairsFrom_key_bound vals 0 q hq
          omega
        · rw [List.length_replicate]
          omega
      · intro i _
        rw [padTo_getD,
          foldWrite_getD (fun p => decorateUrlMsg (get_column_position_text cols "Webサイト") (f p.2))
            (websitePairsFrom 0 vals) _ i (websitePairsFrom_keys_nodup vals 0)]
        cases (websitePairsFrom 0 vals).find? (fun p => p.1 == i) with
        | some p => rfl
        | none => exact replicateEmpty_getD _ i
  refine ⟨?_, hmain.2.1, ?_, ?_⟩
  · rw [hmain.1, websitePairsFrom_snd]
  · intro i hi
    rw [hmain.2.2 i hi]
    have hfind := websitePairsFrom_find? vals 0 i
    rw [Nat.zero_add] at hfind
    rw [hfind, if_pos hi]
    by_cases hb : normalizeValue (vals.getD i "") = ""
    · rw [if_pos hb, if_pos hb]
    · rw [if_neg hb, if_neg hb]
  · intro allErrors i hi hmem hne
    unfold combineRowParts
    rw [List.mem_filterMap]
    refine ⟨(validate_website_urls f cols vals).2, hmem, ?_⟩
    rw [if_pos ⟨by rw [hmain.2.1]; exact hi, hne⟩]

/-- Claim C7 witness: a table with one blank row and one row holding
`@example.com`; the primitive is invoked on `example.com` and its diagnostic,
decorated with the column position, lands in that row's slot. -/
theorem website_urls_per_row_placement_witness :
    ((validate_website_urls (fun u => String.append "NG:" u) ["Webサイト"]
        ["", "@example.com"]).2).getD 1 "" = "（A列）NG:example.com" := by
  have h := (website_urls_per_row_placement (fun u => String.append "NG:" u)
    ["Webサイト"] ["", "@example.com"] (by decide)).2.2.1 1 (by decide)
  rw [h]
  decide

end CircleData
